import Mathlib

/-!
Verification development for the GitHub webhook rendering pipeline of
notifico (src/notifico/services/hooks/github.py).

The Python module is shallowly embedded below.  Dictionaries carrying
webhook payloads are embedded as structures whose fields are `Option`
when the code reads them with `dict.get` (absence is representable) and
plain when the code indexes them directly and every claim concerns
payloads carrying the field.  Sites where the code can raise a Python
exception that escapes the function are embedded with `Except PyExc`.
The generator-based renderers are embedded as functions returning the
fully consumed list of yielded lines; no yielded line has side effects,
so materializing the sequence preserves the observable output.

The external pieces (the `requests` call made by `shorten`, and the
`HookService` base class, which lives outside the given sources) are
modelled explicitly; each such definition says so in its doc comment.
-/

namespace Notifico

/-- Python exceptions that can escape the embedded functions. -/
inductive PyExc where
  | keyError
  | valueError
deriving DecidableEq, Repr

/-! ## Python string primitives used by the module -/

/-- Embedding of the Python expression `s.lower()` as used on branch
names.  Branch names compared by the code are matched per character;
ASCII case folding is what `str.lower` performs on them. -/
def pyLower (s : String) : String :=
  String.mk (s.data.map Char.toLower)

/-- Characters treated as whitespace by Python `str.strip()`. -/
def isPySpace (c : Char) : Bool :=
  c = ' ' || c = '\t' || c = '\n' || c = '\r' || c = '\x0b' || c = '\x0c'

/-- Embedding of the Python expression `s.strip()`. -/
def pyStrip (s : String) : String :=
  String.mk (((s.data.dropWhile isPySpace).reverse.dropWhile isPySpace).reverse)

/-- Helper for `pySplitComma`: accumulates the current chunk. -/
def splitCommaAux (acc : List Char) : List Char → List String
  | [] => [String.mk acc.reverse]
  | c :: rest =>
    if c = ',' then String.mk acc.reverse :: splitCommaAux [] rest
    else splitCommaAux (c :: acc) rest

/-- Embedding of the Python expression `s.split(",")`: every comma is a
separator and empty chunks are kept, so the empty string yields one
empty chunk. -/
def pySplitComma (s : String) : List String :=
  splitCommaAux [] s.data

/-- Embedding of the Python slice `s[:n]` (by code point). -/
def pyTake (n : Nat) (s : String) : String :=
  String.mk (s.data.take n)

/-- Embedding of the Python expression `s.split("\n")[0]`: the text up
to the first newline. -/
def pyFirstLine (s : String) : String :=
  String.mk (s.data.takeWhile (fun c => c ≠ '\n'))

/-- Embedding of the Python expression `" ".join(parts)`. -/
def joinSpace : List String → String
  | [] => ""
  | [x] => x
  | x :: y :: rest => x ++ " " ++ joinSpace (y :: rest)

/-- Truthiness of an optional string field, as tested by `if d[k]:` on a
value that is either a string or None. -/
def optTruthy : Option String → Bool
  | some s => s != ""
  | none => false

/-! ## Regular expressions used by the module

Two patterns occur in the source: `refs/(heads|tags)/(.*)$` applied with
`re.match` in `simplify_payload`, and `^https?://git.io` applied with
`re.search` in `shorten`.  Both are embedded as direct character-list
matchers with the semantics of the Python `re` module: `.` matches any
character except a newline, and `$` matches at the end of the string or
immediately before a terminating newline. -/

/-- Kind captured by the first group of `refs/(heads|tags)/(.*)$`. -/
inductive RefType where
  | heads
  | tags
deriving DecidableEq, Repr

/-- Match of the trailing `(.*)$` of the ref pattern against the rest of
the subject: the group is the run of non-newline characters from the
current position, and the remainder must be empty or a single final
newline. -/
def dotStarDollar (rest : List Char) : Option (List Char) :=
  let body := rest.takeWhile (fun c => c ≠ '\n')
  let tail := rest.drop body.length
  if tail = [] ∨ tail = ['\n'] then some body else none

/-- Embedding of `re.match(r"refs/(heads|tags)/(.*)$", s)`, returning
the two captured groups on success. -/
def ref_r_match (s : String) : Option (RefType × String) :=
  match s.data with
  | 'r' :: 'e' :: 'f' :: 's' :: '/' :: 'h' :: 'e' :: 'a' :: 'd' :: 's' :: '/' :: rest =>
    (dotStarDollar rest).map (fun l => (RefType.heads, String.mk l))
  | 'r' :: 'e' :: 'f' :: 's' :: '/' :: 't' :: 'a' :: 'g' :: 's' :: '/' :: rest =>
    (dotStarDollar rest).map (fun l => (RefType.tags, String.mk l))
  | _ => none

/-- Embedding of `re.search(r"^https?://git.io", url) is not None`.  The
unescaped dot of the pattern matches any character except a newline. -/
def gitio_re (s : String) : Bool :=
  match s.data with
  | 'h' :: 't' :: 't' :: 'p' :: 's' :: ':' :: '/' :: '/' :: 'g' :: 'i' :: 't' :: c :: 'i' :: 'o' :: _ =>
    c != '\n'
  | 'h' :: 't' :: 't' :: 'p' :: ':' :: '/' :: '/' :: 'g' :: 'i' :: 't' :: c :: 'i' :: 'o' :: _ =>
    c != '\n'
  | _ => false

/-! ## Data model -/

/-- The `author` / `committer` sub-dictionaries of a push commit.  Both
fields are read with `dict.get`, so a missing or null entry is `none`. -/
structure AuthorInfo where
  username : Option String := none
  name : Option String := none
deriving DecidableEq, Repr

/-- One entry of the `commits` list of a push payload.  `id`, `message`,
`distinct`, `added`, `removed` and `modified` are indexed directly by
the code and are always present in provider payloads, so they are plain
fields; `author` and `committer` are read with `dict.get`. -/
structure Commit where
  id : String := ""
  message : String := ""
  distinct : Bool := true
  author : Option AuthorInfo := none
  committer : Option AuthorInfo := none
  added : List String := []
  removed : List String := []
  modified : List String := []
deriving DecidableEq, Repr

/-- The `repository` sub-dictionary of a push payload, restricted to the
two fields the module reads. -/
structure Repository where
  name : String := ""
  owner_name : String := ""
deriving DecidableEq, Repr

/-- The `head_commit` sub-dictionary of a push payload. -/
structure HeadCommit where
  id : String := ""
  url : String := ""
deriving DecidableEq, Repr

/-- A push-event payload, restricted to the fields the module reads.
`pusher` is `some name?` when the `pusher` dictionary is present, with
`name?` its optional `name` entry.  `commits` is `none` when the key is
absent (the code raises `KeyError` where it indexes it directly) and
`some list` otherwise.  `head_commit` collapses a missing key and a null
value to `none`: both are falsy at every read site of the module. -/
structure Payload where
  ref : Option String := none
  base_ref : Option String := none
  pusher : Option (Option String) := none
  commits : Option (List Commit) := none
  head_commit : Option HeadCommit := none
  deleted : Bool := false
  repository : Repository := {}
  compare : String := ""
deriving DecidableEq, Repr

/-- Per-hook configuration dictionary.  Every key is optional; the code
reads each with `dict.get` and a default. -/
structure HookConfig where
  branches : Option String := none
  events : Option (List String) := none
  use_colors : Option Bool := none
  show_branch : Option Bool := none
  show_tags : Option Bool := none
  prefer_username : Option Bool := none
  full_project_name : Option Bool := none
  title_only : Option Bool := none
  distinct_only : Option Bool := none
  line_limit : Option Int := none
deriving DecidableEq, Repr

/-- The hook object as seen by this module: only its `config` attribute
is read, and a pre-migration hook can carry `None`. -/
structure Hook where
  config : Option HookConfig := none
deriving DecidableEq, Repr

/-- Result of `simplify_payload`: the massaged view of a push payload.
The dictionary built by the source keeps the raw payload under the
`original` key. -/
structure Normalized where
  branch : Option String
  tag : Option String
  pusher : Option String
  files_all : List String
  files_added : List String
  files_removed : List String
  files_modified : List String
  original : Payload
deriving DecidableEq, Repr

/-! ## simplify_payload -/

/-- Embedding of `simplify_payload` (github.py lines 15-57). -/
def simplify_payload (payload : Payload) : Normalized :=
  let bt : Option (RefType × String) :=
    match ref_r_match (payload.ref.getD "") with
    | some r => some r
    | none => ref_r_match (payload.base_ref.getD "")
  let branch : Option String :=
    match bt with
    | some (RefType.heads, n) => some n
    | _ => none
  let tag : Option String :=
    match bt with
    | some (RefType.tags, n) => some n
    | _ => none
  let pusher : Option String :=
    match payload.pusher with
    | none => none
    | some name? =>
      match name? with
      | some s => if s = "none" then some "A deploy key" else some s
      | none => none
  let cs := payload.commits.getD []
  { branch := branch
    tag := tag
    pusher := pusher
    files_all := cs.flatMap (fun c => c.added ++ c.removed ++ c.modified)
    files_added := cs.flatMap Commit.added
    files_removed := cs.flatMap Commit.removed
    files_modified := cs.flatMap Commit.modified
    original := payload }

/-! ## Event whitelist -/

/-- Embedding of `is_event_allowed` (github.py lines 59-67).  A missing
hook configuration, a missing `events` key and an empty `events` list
are all falsy in the Python guard, and an unset or empty action string
is falsy in the conditional expression building the event name. -/
def is_event_allowed (config : Option HookConfig) (category : String)
    (event : Option String) : Bool :=
  match config with
  | none => true
  | some c =>
    match c.events with
    | none => true
    | some evs =>
      if evs.isEmpty then true
      else
        let event_name :=
          match event with
          | some e => if e = "" then category else category ++ "_" ++ e
          | none => category
        evs.contains event_name

/-! ## Colors and HookService.message

`HookService` lives outside the given sources (notifico/services/hooks).
Modelled from the spec: rendered lines carry inline color tokens taken
from a shared read-only table, and stripping is a pure function removing
the tokens (spec sections 3, 6 and the design notes).  The literals are
mIRC control codes; no theorem below depends on their exact values. -/

def RESET : String := "\x0f"
def BLUE : String := "\x0302"
def GREEN : String := "\x0303"
def ORANGE : String := "\x0307"
def PINK : String := "\x0313"

/-- Helper for `stripColors`: removes the reset byte and two-digit color
codes from a character list. -/
def stripColorsAux : List Char → List Char
  | [] => []
  | '\x0f' :: rest => stripColorsAux rest
  | '\x03' :: a :: b :: rest =>
    if a.isDigit && b.isDigit then stripColorsAux rest
    else '\x03' :: stripColorsAux (a :: b :: rest)
  | c :: rest => c :: stripColorsAux rest

/-- Modelled from the spec: the pure stripping function that removes
every inline color token from a rendered line. -/
def stripColors (s : String) : String :=
  String.mk (stripColorsAux s.data)

/-- Modelled from the spec: `HookService.message`, the wrapper applied
to every yielded line, which strips color tokens exactly when the hook
asked for colors to be removed (spec section 6). -/
def message (text : String) (strip : Bool) : String :=
  if strip then stripColors text else text

/-- The `{RESET}[{BLUE}{name}{RESET}]` project header every push line
starts with. -/
def project_header (project_name : String) : String :=
  RESET ++ "[" ++ BLUE ++ project_name ++ RESET ++ "]"

/-! ## The link shortener client -/

/-- Behaviour of the external `https://git.io` endpoint for one request,
as observed by `shorten`: a connection error, a timeout, any other
exception raised by the `requests` call, or an HTTP response with a
status code and an optional `Location` header. -/
inductive UpstreamResult where
  | connError
  | timeout
  | otherExc
  | resp (status : Nat) (location : Option String)
deriving DecidableEq, Repr

/-- The environment supplying the upstream behaviour for each URL the
client may post. -/
def Env : Type := String → UpstreamResult

/-- Embedding of `GithubHook.shorten` (github.py lines 834-864).  A URL
already matching `^https?://git.io` is returned before any request is
made.  Connection errors, timeouts and other exceptions from the post
are swallowed and the original URL returned (other exceptions are also
reported to Sentry, an effect with no bearing on the returned value).  A
response with a status other than 201 yields the original URL; on 201
the `Location` header is indexed directly, raising `KeyError` when the
header is absent. -/
def shorten (env : Env) (url : String) : Except PyExc String :=
  if gitio_re url then Except.ok url
  else
    match env url with
    | UpstreamResult.connError => Except.ok url
    | UpstreamResult.timeout => Except.ok url
    | UpstreamResult.otherExc => Except.ok url
    | UpstreamResult.resp status location =>
      if status ≠ 201 then Except.ok url
      else
        match location with
        | some l => Except.ok l
        | none => Except.error PyExc.keyError

/-! ## Push renderers -/

/-- The project name used by `_handle_push` (github.py lines 717-722):
the repository name, or `owner/name` when `full_project_name` is set. -/
def project_name_of (config : HookConfig) (payload : Payload) : String :=
  if config.full_project_name.getD false then
    payload.repository.owner_name ++ "/" ++ payload.repository.name
  else
    payload.repository.name

/-- Embedding of `_create_push_summary` (github.py lines 176-224).  The
raw `commits` list is indexed directly, so a payload without the key
raises `KeyError`; the compare link goes through `shorten`. -/
def _create_push_summary (env : Env) (project_name : String)
    (j : Normalized) (config : HookConfig) : Except PyExc String :=
  match j.original.commits with
  | none => Except.error PyExc.keyError
  | some cs => do
    let show_branch := config.show_branch.getD true
    let link ← shorten env j.original.compare
    pure (joinSpace (
      [project_header project_name]
      ++ (match j.pusher with
          | some p => if p = "" then [] else [ORANGE ++ p ++ RESET ++ " pushed"]
          | none => [])
      ++ [GREEN ++ toString cs.length ++ RESET ++ " "
            ++ (if cs.length = 1 then "commit" else "commits")]
      ++ (if show_branch then
            match j.branch with
            | some b => if b = "" then [] else ["to " ++ GREEN ++ b ++ RESET]
            | none => []
          else [])
      ++ ["[+" ++ toString j.files_added.length ++ "/-"
            ++ toString j.files_removed.length ++ "/±"
            ++ toString j.files_modified.length ++ "]"]
      ++ [PINK ++ link ++ RESET]))

/-- Parts of the one-line summary of a single commit built by the loop
body of `_create_commit_summary` (github.py lines 236-285).  The source
assigns `author.get("username")` twice in a row when it is None; the
repeated read has no effect and is embedded once. -/
def _create_commit_line_parts (project_name : String) (config : HookConfig)
    (commit : Commit) : List String :=
  let prefer_username := config.prefer_username.getD true
  let title_only := config.title_only.getD false
  let committer := commit.committer.getD {}
  let author := commit.author.getD {}
  let attribute_to : Option String :=
    match (if prefer_username then author.username else none) with
    | some v => some v
    | none =>
      match author.name with
      | some n => some n
      | none => committer.name
  [project_header project_name]
  ++ (match attribute_to with
      | some a => if a = "" then [] else [ORANGE ++ a ++ RESET]
      | none => [])
  ++ [GREEN ++ pyTake 7 commit.id ++ RESET, "-",
      if title_only then pyFirstLine commit.message else commit.message]

/-- The joined one-line summary of a single commit. -/
def _create_commit_line (project_name : String) (config : HookConfig)
    (commit : Commit) : String :=
  joinSpace (_create_commit_line_parts project_name config commit)

/-- Embedding of `_create_commit_summary` (github.py lines 227-285),
fully consumed: one line per commit of the raw list, skipping the
commits not flagged distinct when `distinct_only` is set. -/
def _create_commit_summary (project_name : String) (j : Normalized)
    (config : HookConfig) : Except PyExc (List String) :=
  match j.original.commits with
  | none => Except.error PyExc.keyError
  | some cs =>
    Except.ok ((if config.distinct_only.getD true then
        cs.filter (fun c => c.distinct)
      else cs).map (_create_commit_line project_name config))

/-- Embedding of `_create_push_final_summary` (github.py lines 288-304):
the truncation line, whose count is the length of the raw `commits`
list minus the configured line limit. -/
def _create_push_final_summary (project_name : String) (j : Normalized)
    (config : HookConfig) : String :=
  let line_limit := config.line_limit.getD 3
  joinSpace [project_header project_name,
    "... and " ++ toString (((j.original.commits.getD []).length : Int) - line_limit)
      ++ " more commits."]

/-- Embedding of `GithubHook._create_non_commit_summary` (github.py
lines 748-832).  A `none` intermediate encodes the early `return ""`
taken when the applicable whitelist gate rejects the event. -/
def _create_non_commit_summary (env : Env) (j : Normalized)
    (config : HookConfig) : Except PyExc String :=
  let original := j.original
  let full_project_name := config.full_project_name.getD false
  let project_name :=
    if full_project_name then
      original.repository.owner_name ++ "/" ++ original.repository.name
    else original.repository.name
  let base :=
    [project_header project_name]
    ++ (match j.pusher with
        | some p => if p = "" then [] else [ORANGE ++ p ++ RESET]
        | none => [])
  let mid? : Option (List String) :=
    if optTruthy j.tag then
      let tag := j.tag.getD ""
      match original.head_commit with
      | none =>
        if is_event_allowed (some config) "delete" (some "tag") then
          some [(if optTruthy j.pusher then "deleted" else "Deleted"), "tag",
                GREEN ++ tag ++ RESET]
        else none
      | some hc =>
        if is_event_allowed (some config) "create" (some "tag") then
          some [(if optTruthy j.pusher then "tagged" else "Tagged"),
                GREEN ++ pyTake 7 hc.id ++ RESET ++ " as",
                GREEN ++ tag ++ RESET]
        else none
    else if optTruthy j.branch then
      let branch := j.branch.getD ""
      if original.deleted then
        if is_event_allowed (some config) "delete" (some "branch") then
          some [(if optTruthy j.pusher then "deleted branch" else "Deleted branch"),
                GREEN ++ branch ++ RESET]
        else none
      else
        if is_event_allowed (some config) "create" (some "branch") then
          some [(if optTruthy j.pusher then "created branch" else "Created branch"),
                GREEN ++ branch ++ RESET]
        else none
    else some []
  match mid? with
  | none => Except.ok ""
  | some mid => do
    let tailPart ←
      match original.head_commit with
      | some hc => (fun l => [PINK ++ l ++ RESET]) <$> shorten env hc.url
      | none => pure ([] : List String)
    pure (joinSpace (base ++ mid ++ tailPart))

/-- The branch filter of `_handle_push` (github.py lines 695-700): true
exactly when the configured comma-separated branch list is non-empty,
the normalized branch is truthy, and its lowercased form is not among
the trimmed, lowercased configured names. -/
def branch_filter_hit (config : HookConfig) (j : Normalized) : Bool :=
  match config.branches with
  | none => false
  | some bs =>
    if bs = "" then false
    else
      let blist := (pySplitComma bs).map (fun b => pyLower (pyStrip b))
      match j.branch with
      | some br => br != "" && !(blist.contains (pyLower br))
      | none => false

/-- The commit-line loop of `_handle_push` (github.py lines 736-746):
yields each formatted commit line until the index triggers the
truncation guard, at which point the final summary is yielded instead
and iteration stops. -/
def push_loop (final_line : String) (strip : Bool)
    (num_commits line_limit : Int) : Int → List String → List String
  | _, [] => []
  | i, fc :: rest =>
    if i > line_limit ∨ (i = line_limit ∧ ¬num_commits = i + 1) then
      [message final_line strip]
    else
      message fc strip :: push_loop final_line strip num_commits line_limit (i + 1) rest

/-- Embedding of `GithubHook._handle_push` (github.py lines 675-746),
fully consumed.  The order of stages follows the source: branch filter,
zero-commit branch (tag or branch create or delete), push whitelist
gate, header summary, per-commit lines with the truncation guard. -/
def _handle_push (env : Env) (hook : Hook) (payload : Payload) :
    Except PyExc (List String) :=
  let j := simplify_payload payload
  let config := hook.config.getD {}
  let strip := !(config.use_colors.getD true)
  let show_tags := config.show_tags.getD true
  let line_limit := config.line_limit.getD 3
  if branch_filter_hit config j then Except.ok []
  else
    match payload.commits with
    | none => Except.error PyExc.keyError
    | some cs =>
      if cs = [] then do
        let tagPart ←
          if show_tags && optTruthy j.tag then
            (fun s => [message s strip]) <$> _create_non_commit_summary env j config
          else pure ([] : List String)
        let brPart ←
          if optTruthy j.branch then
            (fun s => [message s strip]) <$> _create_non_commit_summary env j config
          else pure ([] : List String)
        pure (tagPart ++ brPart)
      else
        let project_name := project_name_of config payload
        if !is_event_allowed (some config) "push" none then Except.ok []
        else do
          let summary ← _create_push_summary env project_name j config
          let lines ← _create_commit_summary project_name j config
          let num_commits : Int := (payload.commits.getD []).length
          pure (message summary strip ::
            push_loop (_create_push_final_summary project_name j config) strip
              num_commits line_limit 0 lines)

/-! ## The dispatcher, specialized to the issues route

`handle_request` (github.py lines 319-357) parses the request body and
dispatches on the `X-GitHub-Event` header through a table of handlers.
The embedding below covers its parse stage in full and the `issues`
row of the table; the push row is settled through `_handle_push` above,
and no claim concerns the remaining rows. -/

/-- The `sender` sub-dictionary, restricted to the read field. -/
structure Sender where
  login : String := ""
deriving DecidableEq, Repr

/-- The `issue` sub-dictionary, restricted to the read fields. -/
structure IssueObj where
  number : Int := 0
  title : String := ""
  html_url : String := ""
deriving DecidableEq, Repr

/-- The `repository` sub-dictionary of an issues payload. -/
structure IssuesRepository where
  name : String := ""
deriving DecidableEq, Repr

/-- An issues-event payload, restricted to the fields the module reads.
Every field is optional: the code indexes each directly and raises
`KeyError` when it is absent. -/
structure IssuesPayload where
  action : Option String := none
  repository : Option IssuesRepository := none
  sender : Option Sender := none
  issue : Option IssueObj := none
deriving DecidableEq, Repr

/-- Direct dictionary indexing `d[k]`: `KeyError` when absent. -/
def dictItem {α : Type} : Option α → Except PyExc α
  | some a => Except.ok a
  | none => Except.error PyExc.keyError

/-- The inbound request as read by `handle_request`: the Content-Type
header, the body parsed by `request.get_json()` (consulted only on the
JSON path, where Flask delivers the parsed payload), the optional
`payload` form field, and the `X-GitHub-Event` header (empty string
default). -/
structure Request where
  content_type : Option String := none
  get_json : IssuesPayload := {}
  form_payload : Option String := none
  event : String := ""

/-- Embedding of the body of `_handle_issues` (github.py lines 366-382).
The format arguments are evaluated in source order, ending with the
shortened issue link. -/
def _handle_issues (env : Env) (json : IssuesPayload) :
    Except PyExc (List String) := do
  let repo ← dictItem json.repository
  let sender ← dictItem json.sender
  let action ← dictItem json.action
  let issue ← dictItem json.issue
  let url ← shorten env issue.html_url
  pure [RESET ++ "[" ++ BLUE ++ repo.name ++ RESET ++ "] "
    ++ ORANGE ++ sender.login ++ RESET ++ " " ++ action
    ++ " issue " ++ GREEN ++ "#" ++ toString issue.number ++ RESET
    ++ ": " ++ issue.title ++ " - " ++ PINK ++ url ++ RESET]

/-- Embedding of the `action_filter("issue")` decorator (github.py lines
69-78) wrapped around `_handle_issues`: the wrapper indexes
`json["action"]` (raising `KeyError` when absent) and calls the handler
only when the whitelist allows the event, yielding nothing otherwise. -/
def _handle_issues_filtered (env : Env) (hook : Hook)
    (json : IssuesPayload) : Except PyExc (List String) := do
  let event ← dictItem json.action
  if is_event_allowed hook.config "issue" (some event) then
    _handle_issues env json
  else pure []

/-- Embedding of `handle_request` (github.py lines 319-357) specialized
to the `issues` route.  The parse stage is complete: a JSON
Content-Type takes the parsed body; otherwise `json.loads` is applied
to the `payload` form field inside a `try` that catches only
`KeyError`, so a missing field returns silently while an unparseable
field raises `ValueError` to the caller.  `loads` abstracts the
standard-library JSON parser, `none` standing for a raised
`ValueError`.  An event header other than `issues` falls outside this
specialization and yields nothing. -/
def handle_request_issues (loads : String → Option IssuesPayload)
    (env : Env) (hook : Hook) (r : Request) : Except PyExc (List String) := do
  let payload? : Option IssuesPayload ←
    if r.content_type = some "application/json" then
      pure (some r.get_json)
    else
      match r.form_payload with
      | none => pure none
      | some s =>
        match loads s with
        | some p => pure (some p)
        | none => Except.error PyExc.valueError
  match payload? with
  | none => pure []
  | some payload =>
    if r.event = "issues" then _handle_issues_filtered env hook payload
    else pure []

/-! ## Generic instances and helper lemmas -/

instance {ε α : Type} [DecidableEq ε] [DecidableEq α] : DecidableEq (Except ε α)
  | Except.ok a, Except.ok b =>
    match decEq a b with
    | isTrue h => isTrue (congrArg Except.ok h)
    | isFalse h => isFalse (fun he => h (Except.ok.inj he))
  | Except.ok _, Except.error _ => isFalse (fun he => Except.noConfusion he)
  | Except.error _, Except.ok _ => isFalse (fun he => Except.noConfusion he)
  | Except.error e, Except.error f =>
    match decEq e f with
    | isTrue h => isTrue (congrArg Except.error h)
    | isFalse h => isFalse (fun he => h (Except.error.inj he))

/-- `simplify_payload` keeps the raw payload under `original`. -/
theorem simplify_original (p : Payload) : (simplify_payload p).original = p := rfl

/-! ## C3: the event whitelist -/

/-- The configured whitelist as a plain list: empty when the hook has no
configuration, no `events` key, or an empty `events` list. -/
def configured_events : Option HookConfig → List String
  | none => []
  | some c => c.events.getD []

/-- The whitelist key as the spec words it: the category when the action
is unset or empty, else `category + "_" + action`. -/
def spec_whitelist_key (category : String) (action : Option String) : String :=
  if action = none ∨ action = some "" then category
  else category ++ "_" ++ action.getD ""

/-- C3: for every hook configuration, category string and action, the
event whitelist check allows the event whenever the `events` option is
absent or empty; otherwise it allows the event exactly when the key
(the category alone for an unset or empty action, else
`category + "_" + action`) is a member of the configured events set. -/
theorem C3_event_whitelist (config : Option HookConfig) (category : String)
    (action : Option String) :
    is_event_allowed config category action = true ↔
      (configured_events config = [] ∨
        spec_whitelist_key category action ∈ configured_events config) := by
  cases config with
  | none => simp [is_event_allowed, configured_events]
  | some c =>
    cases hev : c.events with
    | none => simp [is_event_allowed, configured_events, hev]
    | some evs =>
      cases evs with
      | nil => simp [is_event_allowed, configured_events, hev]
      | cons e es =>
        have hkey :
            (match action with
              | some a => if a = "" then category else category ++ "_" ++ a
              | none => category) = spec_whitelist_key category action := by
          cases action with
          | none => simp [spec_whitelist_key]
          | some a =>
            by_cases ha : a = "" <;> simp [spec_whitelist_key, ha]
        simp only [is_event_allowed, configured_events, hev, List.isEmpty_cons, hkey]
        simp [List.elem_iff]

/-- Applies C3 at concrete inputs: a configured whitelist of
`["push"]` admits the bare `push` key and an unconfigured whitelist
admits everything. -/
theorem C3_event_whitelist_witness :
    is_event_allowed (some { events := some ["push"] }) "push" none = true ∧
    is_event_allowed none "issue" (some "opened") = true := by
  constructor
  · exact (C3_event_whitelist (some { events := some ["push"] }) "push" none).mpr
      (Or.inr (by decide))
  · exact (C3_event_whitelist none "issue" (some "opened")).mpr (Or.inl rfl)

/-! ## C8 and C9: the link shortener -/

/-- C8: a URL already matching `^https?://git.io` is returned unchanged
whatever the upstream would answer, so no external call can affect the
result. -/
theorem C8_shorten_gitio_noop (env : Env) (url : String)
    (h : gitio_re url = true) :
    shorten env url = Except.ok url := by
  simp [shorten, h]

/-- Applies C8 to a concrete already-shortened URL under an upstream
that would answer 200. -/
theorem C8_shorten_gitio_noop_witness :
    shorten (fun _ => UpstreamResult.resp 200 none) "https://git.io/abc"
      = Except.ok "https://git.io/abc" :=
  C8_shorten_gitio_noop (fun _ => UpstreamResult.resp 200 none)
    "https://git.io/abc" (by decide)

/-- C9: an upstream response with any status other than 201 makes the
shortener return the original URL unchanged, and the upstream
`Location` value is returned exactly on status 201 (for a URL the
git.io guard does not already intercept). -/
theorem C9_shorten_status (url loc_url : String) (status : Nat)
    (loc : Option String) :
    (status ≠ 201 →
      shorten (fun _ => UpstreamResult.resp status loc) url = Except.ok url) ∧
    (gitio_re url = false →
      shorten (fun _ => UpstreamResult.resp 201 (some loc_url)) url
        = Except.ok loc_url) := by
  constructor
  · intro h
    by_cases hg : gitio_re url <;> simp [shorten, hg, h]
  · intro hg
    simp [shorten, hg]

/-- Applies C9 at a concrete URL: a 200 answer leaves the URL alone and
a 201 answer substitutes the Location header value. -/
theorem C9_shorten_status_witness :
    shorten (fun _ => UpstreamResult.resp 200 (some "https://git.io/x"))
        "https://example.com" = Except.ok "https://example.com" ∧
    shorten (fun _ => UpstreamResult.resp 201 (some "https://git.io/x"))
        "https://example.com" = Except.ok "https://git.io/x" := by
  constructor
  · exact (C9_shorten_status "https://example.com" "https://git.io/x" 200
      (some "https://git.io/x")).1 (by decide)
  · exact (C9_shorten_status "https://example.com" "https://git.io/x" 200
      (some "https://git.io/x")).2 (by decide)

/-! ## C4: branch and tag extraction -/

/-- C4: normalization inspects `ref` first and then `base_ref` against
`refs/(heads|tags)/<name>`; the first successful match sets exactly one
of branch (heads) or tag (tags), and when neither field matches, both
remain unset. -/
theorem C4_ref_extraction (p : Payload) :
    (∀ n, ref_r_match (p.ref.getD "") = some (RefType.heads, n) →
      (simplify_payload p).branch = some n ∧ (simplify_payload p).tag = none) ∧
    (∀ n, ref_r_match (p.ref.getD "") = some (RefType.tags, n) →
      (simplify_payload p).tag = some n ∧ (simplify_payload p).branch = none) ∧
    (ref_r_match (p.ref.getD "") = none →
      (∀ n, ref_r_match (p.base_ref.getD "") = some (RefType.heads, n) →
        (simplify_payload p).branch = some n ∧ (simplify_payload p).tag = none) ∧
      (∀ n, ref_r_match (p.base_ref.getD "") = some (RefType.tags, n) →
        (simplify_payload p).tag = some n ∧ (simplify_payload p).branch = none) ∧
      (ref_r_match (p.base_ref.getD "") = none →
        (simplify_payload p).branch = none ∧ (simplify_payload p).tag = none)) := by
  refine ⟨fun n h => ?_, fun n h => ?_,
    fun h => ⟨fun n h2 => ?_, fun n h2 => ?_, fun h2 => ?_⟩⟩ <;>
    simp [simplify_payload, h, *]

/-- Applies C4 at concrete refs: a heads ref sets only the branch, a
tags ref sets only the tag, and a non-matching ref leaves both unset. -/
theorem C4_ref_extraction_witness :
    ((simplify_payload { ref := some "refs/heads/master" }).branch = some "master" ∧
      (simplify_payload { ref := some "refs/heads/master" }).tag = none) ∧
    ((simplify_payload { ref := some "refs/tags/v1.0" }).tag = some "v1.0" ∧
      (simplify_payload { ref := some "refs/tags/v1.0" }).branch = none) ∧
    ((simplify_payload { ref := some "HEAD" }).branch = none ∧
      (simplify_payload { ref := some "HEAD" }).tag = none) := by
  refine ⟨?_, ?_, ?_⟩
  · exact (C4_ref_extraction { ref := some "refs/heads/master" }).1 "master" (by decide)
  · exact (C4_ref_extraction { ref := some "refs/tags/v1.0" }).2.1 "v1.0" (by decide)
  · exact (((C4_ref_extraction { ref := some "HEAD" }).2.2 (by decide)).2.2 (by decide))

/-! ## C2: malformed inbound requests -/

/-- C2 counterexample: a valid JSON request declared as an `issues`
event whose payload lacks the `action` key.  The claim asks for empty
output with no exception; the code indexes `json["action"]` inside the
`action_filter` wrapper and the resulting `KeyError` propagates to the
caller. -/
theorem C2_counterexample :
    handle_request_issues (fun _ => none) (fun _ => UpstreamResult.connError)
      { config := none }
      { content_type := some "application/json", get_json := {},
        form_payload := none, event := "issues" }
      = Except.error PyExc.keyError := by decide

/-- C2 amended: on the form-encoded path only a missing `payload` field
is silenced into empty output; an unparseable `payload` field raises
`ValueError` to the caller (and, per the counterexample, a payload
missing the expected `action` field raises `KeyError`). -/
theorem C2_malformed_requests (loads : String → Option IssuesPayload)
    (env : Env) (hook : Hook) (r : Request)
    (h1 : r.content_type ≠ some "application/json") :
    (r.form_payload = none →
      handle_request_issues loads env hook r = Except.ok []) ∧
    (∀ s, r.form_payload = some s → loads s = none →
      handle_request_issues loads env hook r = Except.error PyExc.valueError) := by
  constructor
  · intro h2
    simp only [handle_request_issues, h1, h2]
    rfl
  · intro s h2 h3
    simp only [handle_request_issues, h1, h2, h3]
    rfl

/-- Applies the amended C2 at concrete requests: a form body without a
`payload` field renders nothing, and a form body whose `payload` field
does not parse raises `ValueError`. -/
theorem C2_malformed_requests_witness :
    handle_request_issues (fun _ => none) (fun _ => UpstreamResult.connError)
      { config := none }
      { content_type := none, form_payload := none, event := "issues" }
      = Except.ok [] ∧
    handle_request_issues (fun _ => none) (fun _ => UpstreamResult.connError)
      { config := none }
      { content_type := none, form_payload := some "not json", event := "issues" }
      = Except.error PyExc.valueError := by
  constructor
  · exact (C2_malformed_requests (fun _ => none) (fun _ => UpstreamResult.connError)
      { config := none }
      { content_type := none, form_payload := none, event := "issues" }
      (by decide)).1 rfl
  · exact (C2_malformed_requests (fun _ => none) (fun _ => UpstreamResult.connError)
      { config := none }
      { content_type := none, form_payload := some "not json", event := "issues" }
      (by decide)).2 "not json" rfl rfl

/-! ## C6: commit attribution -/

/-- Attribution as the code resolves it (with `prefer_username` left at
its default of true): the first PRESENT value, in priority order, among
the author username, the author free-text name and the committer
free-text name.  Presence, not non-emptiness, drives the fallback. -/
def resolved_attribution (c : Commit) : Option String :=
  match (c.author.getD {}).username with
  | some v => some v
  | none =>
    match (c.author.getD {}).name with
    | some n => some n
    | none => (c.committer.getD {}).name

/-- The non-attribution tail of a commit line: colored sha prefix,
separator dash, message (or its first line under `title_only`). -/
def commit_tail_parts (cfg : HookConfig) (c : Commit) : List String :=
  [GREEN ++ pyTake 7 c.id ++ RESET, "-",
   if cfg.title_only.getD false then pyFirstLine c.message else c.message]

/-- A commit whose author carries an empty username next to a non-empty
free-text name: the input refuting C6. -/
def c6_commit : Commit :=
  { id := "abcdef1234", message := "m",
    author := some { username := some "", name := some "Alice" },
    committer := some { username := none, name := some "Bob" } }

/-- C6 counterexample: with `prefer_username` at its default, a commit
whose author username is the empty string and whose author name is
"Alice" renders WITHOUT any attribution clause, while the claim demands
the first non-empty value ("Alice") to be used.  The empty-string
username is present, so the code keeps it and then drops the clause on
the final truthiness test. -/
theorem C6_counterexample :
    _create_commit_summary "p"
        (simplify_payload { commits := some [c6_commit],
                            repository := { name := "p" } }) {}
      = Except.ok [joinSpace [project_header "p",
          GREEN ++ "abcdef1" ++ RESET, "-", "m"]] ∧
    joinSpace [project_header "p", GREEN ++ "abcdef1" ++ RESET, "-", "m"]
      ≠ joinSpace [project_header "p", ORANGE ++ "Alice" ++ RESET,
          GREEN ++ "abcdef1" ++ RESET, "-", "m"] := by
  constructor <;> decide

/-- C6 amended: with `prefer_username` at its default of true, the
attribution is the first PRESENT value in the order author username,
author name, committer name; the attribution clause appears in the line
exactly when that resolved value is present and non-empty (so an empty
present username suppresses the clause even when a name exists). -/
theorem C6_attribution (pn : String) (cfg : HookConfig) (c : Commit)
    (hpu : cfg.prefer_username.getD true = true) :
    _create_commit_line_parts pn cfg c =
      project_header pn ::
        ((match resolved_attribution c with
          | some a => if a = "" then [] else [ORANGE ++ a ++ RESET]
          | none => []) ++ commit_tail_parts cfg c) ∧
    ((∃ a, resolved_attribution c = some a ∧ a ≠ "") ↔
      _create_commit_line_parts pn cfg c ≠
        project_header pn :: commit_tail_parts cfg c) := by
  have hparts : _create_commit_line_parts pn cfg c =
      project_header pn ::
        ((match resolved_attribution c with
          | some a => if a = "" then [] else [ORANGE ++ a ++ RESET]
          | none => []) ++ commit_tail_parts cfg c) := by
    simp only [_create_commit_line_parts, resolved_attribution,
      commit_tail_parts, hpu, if_true]
    rfl
  refine ⟨hparts, ?_⟩
  cases hr : resolved_attribution c with
  | none =>
    rw [hparts, hr]
    simp
  | some a =>
    by_cases ha : a = ""
    · rw [hparts, hr, ha]
      simp
    · rw [hparts, hr]
      simp only [if_neg ha]
      constructor
      · intro _ h
        have hlen := congrArg List.length h
        simp [commit_tail_parts] at hlen
      · intro _
        exact ⟨a, rfl, ha⟩

/-- Applies the amended C6 at a commit with a present, non-empty author
username: the attribution clause carries it. -/
theorem C6_attribution_witness :
    _create_commit_line_parts "p" {}
        { id := "abcdef1234", message := "m",
          author := some { username := some "dan" } } =
      [project_header "p", ORANGE ++ "dan" ++ RESET,
       GREEN ++ "abcdef1" ++ RESET, "-", "m"] :=
  (C6_attribution "p" {}
    { id := "abcdef1234", message := "m",
      author := some { username := some "dan" } } (by decide)).1

/-! ## C7: gate rejection on zero-commit pushes -/

/-- At most one of branch and tag is set by normalization: a set tag
forces an unset branch. -/
theorem branch_none_of_tag (p : Payload) (t : String)
    (h : (simplify_payload p).tag = some t) :
    (simplify_payload p).branch = none := by
  simp only [simplify_payload] at h ⊢
  cases h1 : ref_r_match (p.ref.getD "") with
  | some r =>
    obtain ⟨k, n⟩ := r
    cases k <;> simp [h1] at h ⊢
  | none =>
    cases h2 : ref_r_match (p.base_ref.getD "") with
    | some r =>
      obtain ⟨k, n⟩ := r
      cases k <;> simp [h1, h2] at h ⊢
    | none => simp [h1, h2] at h

/-- The message wrapper on the empty string yields the empty string. -/
theorem message_empty (b : Bool) : message "" b = "" := by
  cases b <;> rfl

/-- C7 counterexample: a zero-commit tag-creation push whose
`create_tag` gate rejects (the whitelist admits only `push`).  The
claim says no line is emitted; the code yields the wrapped empty
string, so the output is one empty line, not an empty sequence. -/
theorem C7_counterexample :
    _handle_push (fun _ => UpstreamResult.connError)
        { config := some { events := some ["push"] } }
        { ref := some "refs/tags/v1.0", commits := some [],
          head_commit := some { id := "abcdef1234", url := "hu" },
          repository := { name := "proj" } }
      = Except.ok [""] ∧
    (Except.ok [""] : Except PyExc (List String)) ≠ Except.ok [] := by
  constructor <;> decide

/-- The whitelist gate `_create_non_commit_summary` applies to a
zero-commit push, read off the payload shape exactly as the source
branches (github.py lines 781-817): a truthy tag selects `delete_tag`
without a head commit and `create_tag` with one; otherwise a truthy
branch selects `delete_branch` or `create_branch` on the `deleted`
flag; with neither, no gate applies. -/
def applicable_gate (j : Normalized) : Option (String × String) :=
  if optTruthy j.tag then
    match j.original.head_commit with
    | none => some ("delete", "tag")
    | some _ => some ("create", "tag")
  else if optTruthy j.branch then
    if j.original.deleted then some ("delete", "branch")
    else some ("create", "branch")
  else none

/-- C7 amended: on every zero-commit push whose applicable whitelist
gate (create/tag, delete/tag, create/branch or delete/branch) rejects,
the non-commit summary builder returns the empty string, but the
caller does not treat emptiness as suppression: it yields the wrapped
empty string, so the push output is a single empty line (tag events
additionally require `show_tags` for the caller to yield at all). -/
theorem C7_gate_rejection (env : Env) (cfg : HookConfig) (p : Payload)
    (cat act : String)
    (h1 : p.commits = some [])
    (hgate : applicable_gate (simplify_payload p) = some (cat, act))
    (hrej : is_event_allowed (some cfg) cat (some act) = false)
    (htags : act = "tag" → cfg.show_tags.getD true = true)
    (hbr : cfg.branches = none) :
    _create_non_commit_summary env (simplify_payload p) cfg = Except.ok "" ∧
    _handle_push env { config := some cfg } p = Except.ok [""] := by
  have hhit : branch_filter_hit cfg (simplify_payload p) = false := by
    simp [branch_filter_hit, hbr]
  by_cases htag : optTruthy (simplify_payload p).tag = true
  · -- tag cases: the branch is unset by mutual exclusion
    have ht : ∃ t, (simplify_payload p).tag = some t := by
      cases hx : (simplify_payload p).tag with
      | none => rw [hx] at htag; simp [optTruthy] at htag
      | some t => exact ⟨t, rfl⟩
    obtain ⟨t, ht⟩ := ht
    have hbranch : (simplify_payload p).branch = none := branch_none_of_tag p t ht
    cases hhc : p.head_commit with
    | none =>
      -- delete/tag
      simp only [applicable_gate, simplify_original, htag, hhc, if_true,
        Option.some.injEq, Prod.mk.injEq] at hgate
      obtain ⟨hcat, hact⟩ := hgate
      subst hcat; subst hact
      have hst := htags rfl
      have hsum : _create_non_commit_summary env (simplify_payload p) cfg
          = Except.ok "" := by
        simp only [_create_non_commit_summary, simplify_original, htag, hhc,
          hrej, if_true, if_false, Bool.false_eq_true]
      refine ⟨hsum, ?_⟩
      simp only [_handle_push, Option.getD_some, hhit, h1, hsum, hst, htag,
        hbranch]
      simp [optTruthy, message_empty]
    | some hc =>
      -- create/tag
      simp only [applicable_gate, simplify_original, htag, hhc, if_true,
        Option.some.injEq, Prod.mk.injEq] at hgate
      obtain ⟨hcat, hact⟩ := hgate
      subst hcat; subst hact
      have hst := htags rfl
      have hsum : _create_non_commit_summary env (simplify_payload p) cfg
          = Except.ok "" := by
        simp only [_create_non_commit_summary, simplify_original, htag, hhc,
          hrej, if_true, if_false, Bool.false_eq_true]
      refine ⟨hsum, ?_⟩
      simp only [_handle_push, Option.getD_some, hhit, h1, hsum, hst, htag,
        hbranch]
      simp [optTruthy, message_empty]
  · -- branch cases: the tag is not truthy, the branch must be
    have htag' : optTruthy (simplify_payload p).tag = false :=
      Bool.eq_false_iff.mpr htag
    have hbrt : optTruthy (simplify_payload p).branch = true := by
      by_contra hb
      have hb' : optTruthy (simplify_payload p).branch = false :=
        Bool.eq_false_iff.mpr hb
      simp [applicable_gate, htag', hb'] at hgate
    cases hdel : p.deleted with
    | true =>
      -- delete/branch
      simp only [applicable_gate, simplify_original, htag', hbrt, hdel,
        Bool.false_eq_true, if_false, if_true, Option.some.injEq,
        Prod.mk.injEq] at hgate
      obtain ⟨hcat, hact⟩ := hgate
      subst hcat; subst hact
      have hsum : _create_non_commit_summary env (simplify_payload p) cfg
          = Except.ok "" := by
        simp only [_create_non_commit_summary, simplify_original, htag',
          hbrt, hdel, hrej, Bool.false_eq_true, if_false, if_true]
      refine ⟨hsum, ?_⟩
      simp only [_handle_push, Option.getD_some, hhit, h1, hsum, htag', hbrt]
      simp [message_empty]
    | false =>
      -- create/branch
      simp only [applicable_gate, simplify_original, htag', hbrt, hdel,
        Bool.false_eq_true, if_false, if_true, Option.some.injEq,
        Prod.mk.injEq] at hgate
      obtain ⟨hcat, hact⟩ := hgate
      subst hcat; subst hact
      have hsum : _create_non_commit_summary env (simplify_payload p) cfg
          = Except.ok "" := by
        simp only [_create_non_commit_summary, simplify_original, htag',
          hbrt, hdel, hrej, Bool.false_eq_true, if_false, if_true]
      refine ⟨hsum, ?_⟩
      simp only [_handle_push, Option.getD_some, hhit, h1, hsum, htag', hbrt]
      simp [message_empty]

/-- A rejected tag creation (head commit present): `create_tag`. -/
def c7_payload : Payload :=
  { ref := some "refs/tags/v2.0", commits := some [],
    head_commit := some { id := "1234567abc", url := "hu2" },
    pusher := some (some "bob"),
    repository := { name := "proj2" } }

/-- A rejected tag deletion (no head commit): `delete_tag`. -/
def c7_payload_tag_delete : Payload :=
  { ref := some "refs/tags/v3.0", commits := some [],
    head_commit := none, pusher := some (some "bob"),
    repository := { name := "proj2" } }

/-- A rejected branch creation: `create_branch`. -/
def c7_payload_branch_create : Payload :=
  { ref := some "refs/heads/nb", commits := some [],
    head_commit := none, repository := { name := "proj2" } }

/-- A rejected branch deletion: `delete_branch`. -/
def c7_payload_branch_delete : Payload :=
  { ref := some "refs/heads/ob", commits := some [], deleted := true,
    head_commit := none, repository := { name := "proj2" } }

/-- Applies the amended C7 at all four gates, under a whitelist that
admits only `push`: each rejected zero-commit event contributes a
single empty line. -/
theorem C7_gate_rejection_witness :
    (_create_non_commit_summary (fun _ => UpstreamResult.connError)
        (simplify_payload c7_payload) { events := some ["push"] }
      = Except.ok "" ∧
     _handle_push (fun _ => UpstreamResult.connError)
        { config := some { events := some ["push"] } } c7_payload
      = Except.ok [""]) ∧
    (_create_non_commit_summary (fun _ => UpstreamResult.connError)
        (simplify_payload c7_payload_tag_delete) { events := some ["push"] }
      = Except.ok "" ∧
     _handle_push (fun _ => UpstreamResult.connError)
        { config := some { events := some ["push"] } } c7_payload_tag_delete
      = Except.ok [""]) ∧
    (_create_non_commit_summary (fun _ => UpstreamResult.connError)
        (simplify_payload c7_payload_branch_create) { events := some ["push"] }
      = Except.ok "" ∧
     _handle_push (fun _ => UpstreamResult.connError)
        { config := some { events := some ["push"] } } c7_payload_branch_create
      = Except.ok [""]) ∧
    (_create_non_commit_summary (fun _ => UpstreamResult.connError)
        (simplify_payload c7_payload_branch_delete) { events := some ["push"] }
      = Except.ok "" ∧
     _handle_push (fun _ => UpstreamResult.connError)
        { config := some { events := some ["push"] } } c7_payload_branch_delete
      = Except.ok [""]) :=
  ⟨C7_gate_rejection (fun _ => UpstreamResult.connError)
      { events := some ["push"] } c7_payload "create" "tag"
      rfl (by decide) (by decide) (fun _ => rfl) rfl,
   C7_gate_rejection (fun _ => UpstreamResult.connError)
      { events := some ["push"] } c7_payload_tag_delete "delete" "tag"
      rfl (by decide) (by decide) (fun _ => rfl) rfl,
   C7_gate_rejection (fun _ => UpstreamResult.connError)
      { events := some ["push"] } c7_payload_branch_create "create" "branch"
      rfl (by decide) (by decide) (fun _ => rfl) rfl,
   C7_gate_rejection (fun _ => UpstreamResult.connError)
      { events := some ["push"] } c7_payload_branch_delete "delete" "branch"
      rfl (by decide) (by decide) (fun _ => rfl) rfl⟩

/-! ## C10: the header counts come from the raw commit list -/

/-- Marks every commit of the payload with the given distinct flag. -/
def set_all_distinct (b : Bool) (p : Payload) : Payload :=
  { p with commits :=
      p.commits.map (fun cs => cs.map (fun c => { c with distinct := b })) }

/-- Flattening a per-commit file list is unaffected by rewriting the
distinct flags. -/
theorem flatMap_set_distinct (b : Bool) (g : Commit → List String)
    (hg : ∀ c, g { c with distinct := b } = g c) :
    ∀ cs : List Commit,
      (cs.map fun c => { c with distinct := b }).flatMap g = cs.flatMap g := by
  intro cs
  induction cs with
  | nil => rfl
  | cons c rest ih => simp [hg, ih]

/-- Rewriting the distinct flags leaves the normalized pusher
unchanged. -/
theorem simplify_set_pusher (b : Bool) (p : Payload) :
    (simplify_payload (set_all_distinct b p)).pusher
      = (simplify_payload p).pusher := rfl

/-- Rewriting the distinct flags leaves the normalized branch
unchanged. -/
theorem simplify_set_branch (b : Bool) (p : Payload) :
    (simplify_payload (set_all_distinct b p)).branch
      = (simplify_payload p).branch := rfl

/-- Rewriting the distinct flags leaves the aggregated added files
unchanged. -/
theorem simplify_set_files_added (b : Bool) (p : Payload) :
    (simplify_payload (set_all_distinct b p)).files_added
      = (simplify_payload p).files_added := by
  cases hcs : p.commits with
  | none => simp [simplify_payload, set_all_distinct, hcs]
  | some cs =>
    simp only [simplify_payload, set_all_distinct, hcs, Option.map_some',
      Option.getD_some]
    exact flatMap_set_distinct b Commit.added (fun c => rfl) cs

/-- Rewriting the distinct flags leaves the aggregated removed files
unchanged. -/
theorem simplify_set_files_removed (b : Bool) (p : Payload) :
    (simplify_payload (set_all_distinct b p)).files_removed
      = (simplify_payload p).files_removed := by
  cases hcs : p.commits with
  | none => simp [simplify_payload, set_all_distinct, hcs]
  | some cs =>
    simp only [simplify_payload, set_all_distinct, hcs, Option.map_some',
      Option.getD_some]
    exact flatMap_set_distinct b Commit.removed (fun c => rfl) cs

/-- Rewriting the distinct flags leaves the aggregated modified files
unchanged. -/
theorem simplify_set_files_modified (b : Bool) (p : Payload) :
    (simplify_payload (set_all_distinct b p)).files_modified
      = (simplify_payload p).files_modified := by
  cases hcs : p.commits with
  | none => simp [simplify_payload, set_all_distinct, hcs]
  | some cs =>
    simp only [simplify_payload, set_all_distinct, hcs, Option.map_some',
      Option.getD_some]
    exact flatMap_set_distinct b Commit.modified (fun c => rfl) cs

/-- No commit survives the distinct filter once all flags are false. -/
theorem filter_distinct_false (cs : List Commit) :
    ((cs.map fun c => { c with distinct := false }).filter
      fun c => c.distinct) = [] := by
  induction cs with
  | nil => rfl
  | cons c rest ih => simp [ih]

/-- C10: the push header is computed from the raw commits list — it is
invariant under rewriting every distinct flag — and the aggregated file
tallies come from all commits; meanwhile, with `distinct_only` set,
marking all commits non-distinct removes every per-commit line. -/
theorem C10_header_from_raw (env : Env) (pn : String) (cfg : HookConfig)
    (p : Payload) (cs : List Commit)
    (hcs : p.commits = some cs) (hdo : cfg.distinct_only.getD true = true) :
    (∀ b, _create_push_summary env pn (simplify_payload (set_all_distinct b p)) cfg
        = _create_push_summary env pn (simplify_payload p) cfg) ∧
    (simplify_payload p).files_added = cs.flatMap Commit.added ∧
    (simplify_payload p).files_removed = cs.flatMap Commit.removed ∧
    (simplify_payload p).files_modified = cs.flatMap Commit.modified ∧
    _create_commit_summary pn (simplify_payload (set_all_distinct false p)) cfg
      = Except.ok [] := by
  refine ⟨?_, ?_, ?_, ?_, ?_⟩
  · intro b
    have hmap : (set_all_distinct b p).commits
        = some (cs.map fun c => { c with distinct := b }) := by
      simp [set_all_distinct, hcs]
    have hcompare : (set_all_distinct b p).compare = p.compare := rfl
    simp only [_create_push_summary, simplify_original, hmap, hcs,
      simplify_set_files_added, simplify_set_files_removed,
      simplify_set_files_modified, simplify_set_pusher, simplify_set_branch,
      hcompare, List.length_map]
  · simp [simplify_payload, hcs]
  · simp [simplify_payload, hcs]
  · simp [simplify_payload, hcs]
  · have hmap : (set_all_distinct false p).commits
        = some (cs.map fun c => { c with distinct := false }) := by
      simp [set_all_distinct, hcs]
    simp only [_create_commit_summary, simplify_original, hmap, hdo,
      filter_distinct_false, List.map_nil]
    simp

/-- The two commits (one distinct, one not) of the C10 witness
payload. -/
def c10_commits : List Commit :=
  [{ id := "aaaaaaa11", added := ["f1"] },
   { id := "bbbbbbb22", distinct := false, modified := ["f2"] }]

/-- The C10 witness payload. -/
def c10_payload : Payload :=
  { commits := some c10_commits,
    repository := { name := "p" }, compare := "cmp" }

/-- Applies C10 at a payload of one distinct and one non-distinct
commit: the header is the same once every commit is marked
non-distinct, yet no commit line remains. -/
theorem C10_header_from_raw_witness :
    _create_push_summary (fun _ => UpstreamResult.connError) "p"
        (simplify_payload (set_all_distinct false c10_payload)) {}
      = _create_push_summary (fun _ => UpstreamResult.connError) "p"
        (simplify_payload c10_payload) {} ∧
    _create_commit_summary "p"
        (simplify_payload (set_all_distinct false c10_payload)) {}
      = Except.ok [] := by
  constructor
  · exact (C10_header_from_raw (fun _ => UpstreamResult.connError) "p" {}
      c10_payload c10_commits rfl rfl).1 false
  · exact (C10_header_from_raw (fun _ => UpstreamResult.connError) "p" {}
      c10_payload c10_commits rfl rfl).2.2.2.2

/-! ## C5: the branch filter -/

/-- C5: with a non-empty `branches` option, a push whose normalized
branch (set and non-empty) does not appear — lowercased — among the
trimmed, lowercased configured names produces empty output; a push
whose branch matches case-insensitively is untouched by the branch
filter, behaving exactly as if no branch filter were configured. -/
theorem C5_branch_filter (env : Env) (cfg : HookConfig) (p : Payload)
    (bs br : String)
    (h1 : cfg.branches = some bs) (h2 : bs ≠ "")
    (h3 : (simplify_payload p).branch = some br) (h4 : br ≠ "") :
    (pyLower br ∉ (pySplitComma bs).map (fun b => pyLower (pyStrip b)) →
      _handle_push env { config := some cfg } p = Except.ok []) ∧
    (pyLower br ∈ (pySplitComma bs).map (fun b => pyLower (pyStrip b)) →
      _handle_push env { config := some cfg } p
        = _handle_push env { config := some { cfg with branches := none } } p) := by
  constructor
  · intro hnotin
    have hcontains :
        (((pySplitComma bs).map (fun b => pyLower (pyStrip b))).contains
          (pyLower br)) = false := by
      rw [Bool.eq_false_iff]
      intro hc
      exact hnotin (List.elem_iff.mp hc)
    have hhit : branch_filter_hit cfg (simplify_payload p) = true := by
      simp only [branch_filter_hit, h1, h3]
      rw [if_neg h2, hcontains]
      simp [h4]
    simp [_handle_push, hhit]
  · intro hmem
    have hcontains :
        (((pySplitComma bs).map (fun b => pyLower (pyStrip b))).contains
          (pyLower br)) = true := List.elem_iff.mpr hmem
    have hf1 : branch_filter_hit cfg (simplify_payload p) = false := by
      simp only [branch_filter_hit, h1, h3]
      rw [if_neg h2, hcontains]
      simp
    have hf2 : branch_filter_hit { cfg with branches := none }
        (simplify_payload p) = false := by
      simp [branch_filter_hit]
    simp only [_handle_push, Option.getD_some, hf1, hf2]
    rfl

/-- The payload (branch `Master`, one commit) used to witness C5. -/
def c5_payload : Payload :=
  { ref := some "refs/heads/Master",
    commits := some [{ id := "1111111aa", message := "mm" }],
    repository := { name := "proj" }, compare := "cmp" }

/-- The same payload on branch `feature`. -/
def c5_payload_feature : Payload :=
  { c5_payload with ref := some "refs/heads/feature" }

/-- Applies C5 with `branches = "master, dev"`: a push on `feature` is
fully suppressed while a push on `Master` behaves as without the
filter. -/
theorem C5_branch_filter_witness :
    _handle_push (fun _ => UpstreamResult.connError)
        { config := some { branches := some "master, dev" } } c5_payload_feature
      = Except.ok [] ∧
    _handle_push (fun _ => UpstreamResult.connError)
        { config := some { branches := some "master, dev" } } c5_payload
      = _handle_push (fun _ => UpstreamResult.connError)
        { config := some ({} : HookConfig) } c5_payload := by
  constructor
  · exact (C5_branch_filter (fun _ => UpstreamResult.connError)
      { branches := some "master, dev" } c5_payload_feature
      "master, dev" "feature" rfl (by decide) (by decide) (by decide)).1 (by decide)
  · exact (C5_branch_filter (fun _ => UpstreamResult.connError)
      { branches := some "master, dev" } c5_payload
      "master, dev" "Master" rfl (by decide) (by decide) (by decide)).2 (by decide)

/-! ## C1: push truncation -/

/-- The per-commit lines the commit summary produces for a raw commit
list: the distinct-eligible commits, formatted. -/
def visible_commit_lines (project_name : String) (cfg : HookConfig)
    (cs : List Commit) : List String :=
  (if cfg.distinct_only.getD true then cs.filter (fun c => c.distinct)
   else cs).map (_create_commit_line project_name cfg)

/-- When no index of the line list triggers the truncation guard, the
loop emits every line. -/
theorem push_loop_no_trunc (fin : String) (strip : Bool) (T L : Int)
    (lines : List String) :
    ∀ i : Int,
      (∀ k : Nat, k < lines.length →
        ¬(i + k > L ∨ (i + k = L ∧ ¬T = i + k + 1))) →
      push_loop fin strip T L i lines = lines.map (fun l => message l strip) := by
  induction lines with
  | nil => intro i _; rfl
  | cons c rest ih =>
    intro i h
    have h0 := h 0 (by simp)
    push_cast at h0
    simp only [add_zero] at h0
    simp only [push_loop, List.map_cons]
    rw [if_neg h0]
    congr 1
    refine ih (i + 1) (fun k hk => ?_)
    have hk1 := h (k + 1) (by simp; omega)
    push_cast at hk1 ⊢
    omega

/-- When the first trigger of the truncation guard sits right after the
prefix, the loop emits the prefix and then the final summary line. -/
theorem push_loop_trunc (fin : String) (strip : Bool) (T L : Int)
    (pre : List String) :
    ∀ (i : Int) (c : String) (rest : List String),
      (∀ k : Nat, k < pre.length →
        ¬(i + k > L ∨ (i + k = L ∧ ¬T = i + k + 1))) →
      (i + pre.length > L ∨ (i + pre.length = L ∧ ¬T = i + pre.length + 1)) →
      push_loop fin strip T L i (pre ++ c :: rest)
        = pre.map (fun l => message l strip) ++ [message fin strip] := by
  induction pre with
  | nil =>
    intro i c rest _ hc
    simp only [List.length_nil, Nat.cast_zero, add_zero] at hc
    show push_loop fin strip T L i (c :: rest) = [message fin strip]
    simp only [push_loop]
    rw [if_pos hc]
  | cons q qre ih =>
    intro i c rest hpre hc
    have h0 := hpre 0 (by simp)
    simp only [Nat.cast_zero, add_zero] at h0
    simp only [List.cons_append, push_loop, List.map_cons]
    rw [if_neg h0]
    congr 1
    refine ih (i + 1) c rest (fun k hk => ?_) ?_
    · have hk1 := hpre (k + 1) (by simp; omega)
      push_cast at hk1 ⊢
      omega
    · simp only [List.length_cons] at hc
      push_cast at hc ⊢
      omega

/-- C1 amended: for a push that passes the filters, the header line is
followed by all visible commit lines when their number `N` is at most
`line_limit`, or when `N = line_limit + 1` AND the raw commit count `T`
also equals `line_limit + 1`; otherwise exactly `line_limit` commit
lines are followed by one truncation line, and the truncation count is
`T - line_limit`, computed from the raw list.  (The boundary case is
decided on the raw count, not on the distinct-filtered count as the
claim states it.) -/
theorem C1_push_truncation (env : Env) (cfg : HookConfig) (p : Payload)
    (cs : List Commit) (s : String)
    (hcs : p.commits = some cs) (hne : cs ≠ [])
    (hbr : cfg.branches = none)
    (hgate : is_event_allowed (some cfg) "push" none = true)
    (hL : 0 ≤ cfg.line_limit.getD 3)
    (hsum : _create_push_summary env (project_name_of cfg p)
      (simplify_payload p) cfg = Except.ok s) :
    _handle_push env { config := some cfg } p =
      Except.ok (message s (!(cfg.use_colors.getD true)) ::
        (if ((visible_commit_lines (project_name_of cfg p) cfg cs).length : Int)
              ≤ cfg.line_limit.getD 3 ∨
            (((visible_commit_lines (project_name_of cfg p) cfg cs).length : Int)
                = cfg.line_limit.getD 3 + 1 ∧
              (cs.length : Int) = cfg.line_limit.getD 3 + 1) then
          (visible_commit_lines (project_name_of cfg p) cfg cs).map
            (fun l => message l (!(cfg.use_colors.getD true)))
        else
          ((visible_commit_lines (project_name_of cfg p) cfg cs).take
              (cfg.line_limit.getD 3).toNat).map
            (fun l => message l (!(cfg.use_colors.getD true)))
          ++ [message (_create_push_final_summary (project_name_of cfg p)
                (simplify_payload p) cfg) (!(cfg.use_colors.getD true))])) ∧
    _create_push_final_summary (project_name_of cfg p) (simplify_payload p) cfg
      = joinSpace [project_header (project_name_of cfg p),
          "... and " ++ toString ((cs.length : Int) - cfg.line_limit.getD 3)
            ++ " more commits."] := by
  have hfinal : _create_push_final_summary (project_name_of cfg p)
      (simplify_payload p) cfg
      = joinSpace [project_header (project_name_of cfg p),
          "... and " ++ toString ((cs.length : Int) - cfg.line_limit.getD 3)
            ++ " more commits."] := by
    simp [_create_push_final_summary, simplify_original, hcs]
  refine ⟨?_, hfinal⟩
  have hhit : branch_filter_hit cfg (simplify_payload p) = false := by
    simp [branch_filter_hit, hbr]
  have hlines : _create_commit_summary (project_name_of cfg p)
      (simplify_payload p) cfg
      = Except.ok (visible_commit_lines (project_name_of cfg p) cfg cs) := by
    simp only [_create_commit_summary, simplify_original, hcs,
      visible_commit_lines]
  have hstep : _handle_push env { config := some cfg } p
      = Except.ok (message s (!(cfg.use_colors.getD true)) ::
          push_loop (_create_push_final_summary (project_name_of cfg p)
              (simplify_payload p) cfg)
            (!(cfg.use_colors.getD true)) (cs.length : Int)
            (cfg.line_limit.getD 3) 0
            (visible_commit_lines (project_name_of cfg p) cfg cs)) := by
    simp only [_handle_push, Option.getD_some, hhit, Bool.false_eq_true,
      if_false, hcs]
    rw [if_neg hne]
    simp only [hgate, Bool.not_true, Bool.false_eq_true, if_false, hsum,
      hlines, Option.getD_some]
    rfl
  rw [hstep]
  congr 2
  by_cases hcond :
      ((visible_commit_lines (project_name_of cfg p) cfg cs).length : Int)
          ≤ cfg.line_limit.getD 3 ∨
        (((visible_commit_lines (project_name_of cfg p) cfg cs).length : Int)
            = cfg.line_limit.getD 3 + 1 ∧
          (cs.length : Int) = cfg.line_limit.getD 3 + 1)
  · rw [if_pos hcond]
    refine push_loop_no_trunc _ _ _ _ _ 0 (fun k hk => ?_)
    omega
  · rw [if_neg hcond]
    have hNT : (visible_commit_lines (project_name_of cfg p) cfg cs).length
        ≤ cs.length := by
      unfold visible_commit_lines
      cases cfg.distinct_only.getD true <;>
        simp [List.length_filter_le]
    obtain ⟨a, l2, hd⟩ : ∃ a l2,
        (visible_commit_lines (project_name_of cfg p) cfg cs).drop
          (cfg.line_limit.getD 3).toNat = a :: l2 := by
      cases hdc : (visible_commit_lines (project_name_of cfg p) cfg cs).drop
          (cfg.line_limit.getD 3).toNat with
      | nil =>
        exfalso
        have hlen := congrArg List.length hdc
        simp only [List.length_drop, List.length_nil] at hlen
        omega
      | cons a l2 => exact ⟨a, l2, rfl⟩
    conv_lhs =>
      rw [← List.take_append_drop (cfg.line_limit.getD 3).toNat
        (visible_commit_lines (project_name_of cfg p) cfg cs), hd]
    rw [push_loop_trunc]
    · intro k hk
      rw [List.length_take] at hk
      omega
    · rw [List.length_take]
      push_cast
      omega

/-- The payload refuting C1: five raw commits, the last one not
distinct, so there are N = 4 distinct-eligible commits against the
default line limit L = 3. -/
def c1_payload : Payload :=
  { ref := some "refs/heads/master",
    commits := some [{ id := "1111111aa", message := "m1" },
      { id := "2222222aa", message := "m2" },
      { id := "3333333aa", message := "m3" },
      { id := "4444444aa", message := "m4" },
      { id := "5555555aa", message := "m5", distinct := false }],
    repository := { name := "proj" }, compare := "cmp" }

/-- C1 counterexample: the claim says that with N = L + 1 = 4
distinct-eligible commits all four commit lines appear and no
truncation line is emitted; on this payload the code checks the raw
count (5) against L + 1 and therefore emits only L = 3 commit lines
followed by the truncation line `... and 2 more commits.` (the second
conjunct certifies that four visible commit lines were available). -/
theorem C1_counterexample :
    _handle_push (fun _ => UpstreamResult.connError) { config := some {} }
        c1_payload
      = Except.ok
          ["\x0f[\x0302proj\x0f] \x03035\x0f commits to \x0303master\x0f [+0/-0/±0] \x0313cmp\x0f",
           "\x0f[\x0302proj\x0f] \x03031111111\x0f - m1",
           "\x0f[\x0302proj\x0f] \x03032222222\x0f - m2",
           "\x0f[\x0302proj\x0f] \x03033333333\x0f - m3",
           "\x0f[\x0302proj\x0f] ... and 2 more commits."] ∧
    (_create_commit_summary "proj" (simplify_payload c1_payload) {}).map
        List.length
      = Except.ok 4 := by
  constructor <;> decide

/-- The single-commit payload used to witness the amended C1. -/
def c1_witness_payload : Payload :=
  { ref := some "refs/heads/b",
    commits := some [{ id := "abcdef1234", message := "hello" }],
    repository := { name := "proj" }, compare := "cmp" }

/-- Applies the amended C1 at one distinct commit under the default
configuration: N = 1 is at most L = 3, so the full line list follows
the header and no truncation line appears. -/
theorem C1_push_truncation_witness :
    _handle_push (fun _ => UpstreamResult.connError) { config := some {} }
        c1_witness_payload
      = Except.ok
          ["\x0f[\x0302proj\x0f] \x03031\x0f commit to \x0303b\x0f [+0/-0/±0] \x0313cmp\x0f",
           "\x0f[\x0302proj\x0f] \x0303abcdef1\x0f - hello"] :=
  (C1_push_truncation (fun _ => UpstreamResult.connError) {} c1_witness_payload
    [{ id := "abcdef1234", message := "hello" }]
    "\x0f[\x0302proj\x0f] \x03031\x0f commit to \x0303b\x0f [+0/-0/±0] \x0313cmp\x0f"
    rfl (by decide) rfl (by decide) (by decide) (by decide)).1

end Notifico
